import Mathlib

/-!
Verification of the weight-perturbation gradient library
(`weight_perturbation.py`).

The program works on Python dictionaries mapping parameter names to
numeric arrays.  We embed a dictionary as an ordered association list
`List (String × Arr)` (Python dictionaries preserve insertion order),
an array as its shape together with its flat list of entries over `ℚ`
(the "standard numeric array operations" assumed by the library), and
fallible Python code (KeyError, ZeroDivisionError, ValueError) as
`Except Err`.  The gradient estimators are additionally instrumented
with an event trace recording every invocation of the external
sampler and forward-pass capabilities, so that claims about how often
those collaborators are called become statements about the trace.
-/

/-- A numeric array: its shape and its flat data. -/
structure Arr where
  shape : List Nat
  data : List ℚ
deriving DecidableEq

/-- Elementwise array addition (numpy `+` on same-shaped arrays). -/
def Arr.add (a b : Arr) : Arr :=
  ⟨a.shape, List.zipWith (fun x y => x + y) a.data b.data⟩

/-- Array times scalar on the right (Python `val * c`). -/
def Arr.mulScalar (a : Arr) (c : ℚ) : Arr :=
  ⟨a.shape, a.data.map (fun x => x * c)⟩

/-- Scalar times array on the left (Python `c * val`). -/
def Arr.scalarMul (c : ℚ) (a : Arr) : Arr :=
  ⟨a.shape, a.data.map (fun x => c * x)⟩

/-- A Python dictionary from parameter names to arrays, in insertion order. -/
abbrev Dict := List (String × Arr)

/-- Python dictionary lookup `d[k]` (first entry with the given key). -/
def dfind : Dict → String → Option Arr
  | [], _ => none
  | kv :: rest, k => if kv.1 = k then some kv.2 else dfind rest k

/-- The ordered key list of a dictionary. -/
def dkeys (d : Dict) : List String := d.map Prod.fst

/-- Errors the library can raise: the Python ValueError (spec:
InvalidArgument), KeyError and ZeroDivisionError. -/
inductive Err where
  | invalidArg (msg : String)
  | keyError (key : String)
  | zeroDivision
deriving DecidableEq

/-- `dictionary_add(dict1, dict2)`: the comprehension
`{key: val + dict2[key] for key, val in dict1.items()}`, evaluated left
to right, raising KeyError at the first key of `dict1` missing from
`dict2`. -/
def dictionary_add : Dict → Dict → Except Err Dict
  | [], _ => Except.ok []
  | kv :: rest, dict2 =>
    match dfind dict2 kv.1 with
    | none => Except.error (Err.keyError kv.1)
    | some w =>
      match dictionary_add rest dict2 with
      | Except.error e => Except.error e
      | Except.ok c => Except.ok ((kv.1, Arr.add kv.2 w) :: c)

/-- `dictionary_mult(dictionary, c)`:
`{key: val * c for key, val in dictionary.items()}`. -/
def dictionary_mult (dictionary : Dict) (c : ℚ) : Dict :=
  dictionary.map (fun kv => (kv.1, Arr.mulScalar kv.2 c))

/-- `sample_perturbation(sampler, params)`: one sampler call per key,
with the shape of the array at that key.  The sampler capability is a
function from the requested shape to the drawn array. -/
def sample_perturbation (sampler : List Nat → Arr) (params : Dict) : Dict :=
  params.map (fun kv => (kv.1, sampler kv.2.shape))

/-- The comprehension
`{key: -lr / scale**2 * val for key, val in gradient.items()}` from
`update_weights`: evaluated per entry, so an empty gradient never
divides, and a zero `scale` raises ZeroDivisionError at the first
entry. -/
def wpDelta (scale lr : ℚ) : Dict → Except Err Dict
  | [] => Except.ok []
  | kv :: rest =>
    if scale ^ 2 = 0 then Except.error Err.zeroDivision
    else
      match wpDelta scale lr rest with
      | Except.error e => Except.error e
      | Except.ok c => Except.ok ((kv.1, Arr.scalarMul (-lr / scale ^ 2) kv.2) :: c)

/-- `update_weights(gradient, params, scale, lr)`: builds
`delta_W` and returns `dictionary_add(delta_W, params)`. -/
def update_weights (gradient params : Dict) (scale lr : ℚ) : Except Err Dict :=
  match wpDelta scale lr gradient with
  | Except.error e => Except.error e
  | Except.ok delta_W => dictionary_add delta_W params

/-- One observable call to an external capability during gradient
estimation: a sampler draw (with the requested shape) or a
forward-pass evaluation (with its arguments). -/
inductive Event (I : Type) where
  | sampleCall (shape : List Nat)
  | forwardCall (inputs : I) (params : Dict)
deriving DecidableEq

/-- The ValueError message raised for an unrecognized method. -/
def invalidMethodMsg : String :=
  "Invalid option given. Choose between: \x7b\"ffd\", \"cfd\"\x7d"

/-- `compute_gradient(forward_pass, inputs, params, sampler, method)`,
instrumented: the second component records, in order, every sampler
call (one per key of `params`, made by `sample_perturbation`) and
every forward-pass call with the dictionary it was evaluated at. -/
def compute_gradient {I : Type} (forward_pass : I → Dict → ℚ) (inputs : I)
    (params : Dict) (sampler : List Nat → Arr) (method : String) :
    Except Err Dict × List (Event I) :=
  let h := sample_perturbation sampler params
  let sampleEvents : List (Event I) := params.map (fun kv => Event.sampleCall kv.2.shape)
  if method = "ffd" then
    let clean_loss := forward_pass inputs params
    match dictionary_add params h with
    | Except.error e => (Except.error e, sampleEvents ++ [Event.forwardCall inputs params])
    | Except.ok perturbed =>
      let perturbed_loss := forward_pass inputs perturbed
      (Except.ok (dictionary_mult h (perturbed_loss - clean_loss)),
        sampleEvents ++ [Event.forwardCall inputs params, Event.forwardCall inputs perturbed])
  else if method = "cfd" then
    match dictionary_add params h with
    | Except.error e => (Except.error e, sampleEvents)
    | Except.ok perturbed =>
      let perturbed_loss := forward_pass inputs perturbed
      match dictionary_add params (dictionary_mult h (-1)) with
      | Except.error e => (Except.error e, sampleEvents ++ [Event.forwardCall inputs perturbed])
      | Except.ok negPerturbed =>
        let neg_perturbed_loss := forward_pass inputs negPerturbed
        (Except.ok (dictionary_mult h (perturbed_loss - neg_perturbed_loss)),
          sampleEvents ++ [Event.forwardCall inputs perturbed, Event.forwardCall inputs negPerturbed])
  else (Except.error (Err.invalidArg invalidMethodMsg), sampleEvents)

/-- `compute_gradient_vector`: a line-for-line duplicate of
`compute_gradient` in the source, embedded identically. -/
def compute_gradient_vector {I : Type} (forward_pass : I → Dict → ℚ) (inputs : I)
    (params : Dict) (sampler : List Nat → Arr) (method : String) :
    Except Err Dict × List (Event I) :=
  let h := sample_perturbation sampler params
  let sampleEvents : List (Event I) := params.map (fun kv => Event.sampleCall kv.2.shape)
  if method = "ffd" then
    let clean_loss := forward_pass inputs params
    match dictionary_add params h with
    | Except.error e => (Except.error e, sampleEvents ++ [Event.forwardCall inputs params])
    | Except.ok perturbed =>
      let perturbed_loss := forward_pass inputs perturbed
      (Except.ok (dictionary_mult h (perturbed_loss - clean_loss)),
        sampleEvents ++ [Event.forwardCall inputs params, Event.forwardCall inputs perturbed])
  else if method = "cfd" then
    match dictionary_add params h with
    | Except.error e => (Except.error e, sampleEvents)
    | Except.ok perturbed =>
      let perturbed_loss := forward_pass inputs perturbed
      match dictionary_add params (dictionary_mult h (-1)) with
      | Except.error e => (Except.error e, sampleEvents ++ [Event.forwardCall inputs perturbed])
      | Except.ok negPerturbed =>
        let neg_perturbed_loss := forward_pass inputs negPerturbed
        (Except.ok (dictionary_mult h (perturbed_loss - neg_perturbed_loss)),
          sampleEvents ++ [Event.forwardCall inputs perturbed, Event.forwardCall inputs negPerturbed])
  else (Except.error (Err.invalidArg invalidMethodMsg), sampleEvents)

/-- A sampler stub drawing an all-ones array of the requested shape. -/
def onesSampler (shape : List Nat) : Arr :=
  ⟨shape, List.replicate shape.prod 1⟩

/-- A one-key parameter dictionary used in the concrete test vectors. -/
def exParams : Dict := [("w", ⟨[2], [10, 20]⟩)]

/-- Forward-pass stub for the ffd test vector: loss 2 at the clean
params, 5 elsewhere (in particular at the perturbed params). -/
def ffdStub : Unit → Dict → ℚ :=
  fun _ d => if d = exParams then 2 else 5

/-- Forward-pass stub for the cfd test vector: loss 5 at `params + h`
(the all-ones perturbation of `exParams`), 1 elsewhere (in particular
at `params - h`). -/
def cfdStub : Unit → Dict → ℚ :=
  fun _ d => if d = [("w", ⟨[2], [11, 21]⟩)] then 5 else 1

/-! ### Helper lemmas about lookup, addition and the delta comprehension -/

theorem dfind_isSome_of_mem {d : Dict} {kv : String × Arr} (h : kv ∈ d) :
    (dfind d kv.1).isSome := by
  induction d with
  | nil => simp at h
  | cons hd tl ih =>
    by_cases hk : hd.1 = kv.1
    · simp [dfind, hk]
    · rcases List.mem_cons.mp h with h1 | h1
      · exact absurd (congrArg Prod.fst h1.symm) hk
      · simpa [dfind, hk] using ih h1

theorem dfind_map_entry (f : String × Arr → Arr) {d : Dict} {k : String} {v : Arr}
    (h : dfind d k = some v) :
    dfind (d.map (fun kv => (kv.1, f kv))) k = some (f (k, v)) := by
  induction d with
  | nil => simp [dfind] at h
  | cons hd tl ih =>
    obtain ⟨k0, v0⟩ := hd
    by_cases hk : k0 = k
    · subst hk
      simp only [dfind, if_true, eq_self_iff_true] at h
      rw [Option.some.injEq] at h
      subst h
      simp [dfind]
    · simp only [dfind, if_neg hk] at h
      simpa [dfind, hk] using ih h

theorem dfind_map_isSome (f : String × Arr → Arr) {d : Dict} {k : String}
    (h : (dfind d k).isSome) :
    (dfind (d.map (fun kv => (kv.1, f kv))) k).isSome := by
  obtain ⟨v, hv⟩ := Option.isSome_iff_exists.mp h
  rw [dfind_map_entry f hv]
  rfl

theorem dictionary_add_eq_ok (d1 d2 : Dict)
    (h : ∀ kv ∈ d1, (dfind d2 kv.1).isSome) :
    dictionary_add d1 d2 =
      Except.ok (d1.map (fun kv => (kv.1, Arr.add kv.2 ((dfind d2 kv.1).getD ⟨[], []⟩)))) := by
  induction d1 with
  | nil => rfl
  | cons hd tl ih =>
    obtain ⟨w, hw⟩ := Option.isSome_iff_exists.mp (h hd (List.mem_cons_self hd tl))
    have htl := ih (fun kv hkv => h kv (List.mem_cons_of_mem hd hkv))
    simp [dictionary_add, hw, htl]

theorem dictionary_add_eq_error (d1 d2 : Dict)
    (h : ∃ kv ∈ d1, dfind d2 kv.1 = none) :
    ∃ k, dictionary_add d1 d2 = Except.error (Err.keyError k) ∧
      dfind d2 k = none ∧ (dfind d1 k).isSome := by
  induction d1 with
  | nil => simp at h
  | cons hd tl ih =>
    cases hfind : dfind d2 hd.1 with
    | none =>
      refine ⟨hd.1, ?_, hfind, ?_⟩
      · simp [dictionary_add, hfind]
      · simp [dfind]
    | some w =>
      obtain ⟨kv, hmem, hnone⟩ := h
      rcases List.mem_cons.mp hmem with h1 | h1
      · rw [h1] at hnone
        rw [hnone] at hfind
        exact absurd hfind (by simp)
      · obtain ⟨k, hk1, hk2, hk3⟩ := ih ⟨kv, h1, hnone⟩
        refine ⟨k, ?_, hk2, ?_⟩
        · simp [dictionary_add, hfind, hk1]
        · by_cases hke : hd.1 = k
          · simp [dfind, hke]
          · simpa [dfind, hke] using hk3

theorem dictionary_add_ok_keys {d1 d2 c : Dict}
    (h : dictionary_add d1 d2 = Except.ok c) : dkeys c = dkeys d1 := by
  induction d1 generalizing c with
  | nil =>
    simp only [dictionary_add] at h
    cases h
    rfl
  | cons hd tl ih =>
    simp only [dictionary_add] at h
    cases hfind : dfind d2 hd.1 with
    | none => rw [hfind] at h; cases h
    | some w =>
      rw [hfind] at h
      cases hrec : dictionary_add tl d2 with
      | error e => rw [hrec] at h; cases h
      | ok c2 =>
        rw [hrec] at h
        cases h
        have h2 := ih hrec
        simp only [dkeys, List.map_cons] at h2 ⊢
        simp [h2]

theorem dictionary_add_skip_head (d1 : Dict) (p : String × Arr) (d2 : Dict)
    (h : ∀ kv ∈ d1, kv.1 ≠ p.1) :
    dictionary_add d1 (p :: d2) = dictionary_add d1 d2 := by
  induction d1 with
  | nil => rfl
  | cons hd tl ih =>
    have hne : ¬ p.1 = hd.1 := fun he => (h hd (List.mem_cons_self hd tl)) he.symm
    have htl := ih (fun kv hkv => h kv (List.mem_cons_of_mem hd hkv))
    simp [dictionary_add, dfind, hne, htl]

theorem wpDelta_eq_ok (scale lr : ℚ) (gradient : Dict) (hs : scale ≠ 0) :
    wpDelta scale lr gradient =
      Except.ok (gradient.map (fun kv => (kv.1, Arr.scalarMul (-lr / scale ^ 2) kv.2))) := by
  have hs2 : ¬ scale ^ 2 = 0 := pow_ne_zero 2 hs
  induction gradient with
  | nil => rfl
  | cons hd tl ih => simp [wpDelta, hs2, ih]

theorem wpDelta_ok_keys {scale lr : ℚ} {gradient d : Dict}
    (h : wpDelta scale lr gradient = Except.ok d) : dkeys d = dkeys gradient := by
  induction gradient generalizing d with
  | nil =>
    simp only [wpDelta] at h
    cases h
    rfl
  | cons hd tl ih =>
    simp only [wpDelta] at h
    by_cases hs2 : scale ^ 2 = 0
    · rw [if_pos hs2] at h; cases h
    · rw [if_neg hs2] at h
      cases hrec : wpDelta scale lr tl with
      | error e => rw [hrec] at h; cases h
      | ok c2 =>
        rw [hrec] at h
        cases h
        have h2 := ih hrec
        simp only [dkeys, List.map_cons] at h2 ⊢
        simp [h2]

theorem zipWith_zero_add (l1 l2 : List ℚ) (h : l1.length = l2.length) :
    List.zipWith (fun a b => 0 * a + b) l1 l2 = l2 := by
  induction l1 generalizing l2 with
  | nil =>
    cases l2 with
    | nil => rfl
    | cons b bs => simp at h
  | cons a as ih =>
    cases l2 with
    | nil => simp at h
    | cons b bs =>
      simp only [List.length_cons, Nat.succ.injEq] at h
      rw [List.zipWith_cons_cons, ih bs h]
      norm_num

theorem sp_isSome (sampler : List Nat → Arr) (params : Dict) (kv : String × Arr)
    (hkv : kv ∈ params) :
    (dfind (sample_perturbation sampler params) kv.1).isSome := by
  simpa [sample_perturbation] using
    dfind_map_isSome (fun kv => sampler kv.2.shape) (dfind_isSome_of_mem hkv)

theorem dictionary_mult_map (c : ℚ) (f : String × Arr → Arr) (d : Dict) :
    dictionary_mult (d.map (fun kv => (kv.1, f kv))) c =
      d.map (fun kv => (kv.1, Arr.mulScalar (f kv) c)) := by
  simp [dictionary_mult, List.map_map, Function.comp]

theorem spneg_isSome (sampler : List Nat → Arr) (params : Dict) (kv : String × Arr)
    (hkv : kv ∈ params) :
    (dfind (dictionary_mult (sample_perturbation sampler params) (-1)) kv.1).isSome := by
  rw [sample_perturbation, dictionary_mult_map]
  exact dfind_map_isSome _ (dfind_isSome_of_mem hkv)

/-! ### The claims -/

/-- C1: for every forward pass, inputs, params and sampler,
`compute_gradient` with `method="ffd"` evaluates the loss exactly once
at the clean params and once at `params + h` (`h` the sampled
perturbation) — witnessed by the event trace — and returns the per-key
estimate `h * (perturbed_loss - clean_loss)`; in particular, with the
all-ones perturbation, clean loss 2 and perturbed loss 5, every
element of the result equals 3. -/
theorem compute_gradient_ffd_correct {I : Type} (forward_pass : I → Dict → ℚ)
    (inputs : I) (params : Dict) (sampler : List Nat → Arr) :
    (∃ perturbed,
      dictionary_add params (sample_perturbation sampler params) = Except.ok perturbed ∧
      compute_gradient forward_pass inputs params sampler "ffd" =
        (Except.ok (dictionary_mult (sample_perturbation sampler params)
            (forward_pass inputs perturbed - forward_pass inputs params)),
          (params.map fun kv => Event.sampleCall kv.2.shape) ++
            [Event.forwardCall inputs params, Event.forwardCall inputs perturbed])) ∧
    (compute_gradient ffdStub () exParams onesSampler "ffd").1 =
      Except.ok [("w", ⟨[2], [3, 3]⟩)] := by
  constructor
  · have hok := dictionary_add_eq_ok params (sample_perturbation sampler params)
      (fun kv hkv => sp_isSome sampler params kv hkv)
    exact ⟨_, hok, by simp [compute_gradient, hok]⟩
  · with_unfolding_all rfl

/-- C2: for every forward pass, inputs, params and sampler,
`compute_gradient` with `method="cfd"` evaluates the loss exactly
twice, at `params + h` and at `params - h`, with no clean-loss
evaluation — witnessed by the event trace — and returns the per-key
estimate `h * (perturbed_loss - neg_perturbed_loss)`; in particular,
with the all-ones perturbation and losses 5 at `+h` and 1 at `-h`,
every element of the result equals 4. -/
theorem compute_gradient_cfd_correct {I : Type} (forward_pass : I → Dict → ℚ)
    (inputs : I) (params : Dict) (sampler : List Nat → Arr) :
    (∃ perturbed negPerturbed,
      dictionary_add params (sample_perturbation sampler params) = Except.ok perturbed ∧
      dictionary_add params (dictionary_mult (sample_perturbation sampler params) (-1)) =
        Except.ok negPerturbed ∧
      compute_gradient forward_pass inputs params sampler "cfd" =
        (Except.ok (dictionary_mult (sample_perturbation sampler params)
            (forward_pass inputs perturbed - forward_pass inputs negPerturbed)),
          (params.map fun kv => Event.sampleCall kv.2.shape) ++
            [Event.forwardCall inputs perturbed, Event.forwardCall inputs negPerturbed])) ∧
    (compute_gradient cfdStub () exParams onesSampler "cfd").1 =
      Except.ok [("w", ⟨[2], [4, 4]⟩)] := by
  constructor
  · have hok := dictionary_add_eq_ok params (sample_perturbation sampler params)
      (fun kv hkv => sp_isSome sampler params kv hkv)
    have hneg := dictionary_add_eq_ok params
      (dictionary_mult (sample_perturbation sampler params) (-1))
      (fun kv hkv => spneg_isSome sampler params kv hkv)
    exact ⟨_, _, hok, hneg, by simp [compute_gradient, hok, hneg]⟩
  · with_unfolding_all rfl

/-- C8: `compute_gradient` and `compute_gradient_vector` are
extensionally equal on every input: same gradient result and the same
external-call behavior (they are duplicate bodies of one routine). -/
theorem compute_gradient_vector_duplicate {I : Type} (forward_pass : I → Dict → ℚ)
    (inputs : I) (params : Dict) (sampler : List Nat → Arr) (method : String) :
    compute_gradient forward_pass inputs params sampler method =
      compute_gradient_vector forward_pass inputs params sampler method := rfl

/-- C3: any method outside `ffd`/`cfd` makes `compute_gradient` fail
with the ValueError (InvalidArgument) whose message names the two
accepted values, and the forward pass is called zero times: the trace
holds only the sampler calls. -/
theorem compute_gradient_invalid_method {I : Type} (forward_pass : I → Dict → ℚ)
    (inputs : I) (params : Dict) (sampler : List Nat → Arr) (method : String)
    (h1 : method ≠ "ffd") (h2 : method ≠ "cfd") :
    compute_gradient forward_pass inputs params sampler method =
      (Except.error (Err.invalidArg invalidMethodMsg),
        params.map fun kv => Event.sampleCall kv.2.shape) ∧
    (∀ i p, Event.forwardCall i p ∉ (compute_gradient forward_pass inputs params sampler method).2) ∧
    (∃ s1 s2 s3, invalidMethodMsg = s1 ++ "ffd" ++ s2 ++ "cfd" ++ s3) := by
  have hmain : compute_gradient forward_pass inputs params sampler method =
      (Except.error (Err.invalidArg invalidMethodMsg),
        params.map fun kv => Event.sampleCall kv.2.shape) := by
    simp [compute_gradient, h1, h2]
  refine ⟨hmain, ?_, ?_⟩
  · intro i p hmem
    rw [hmain] at hmem
    simp at hmem
  · exact ⟨"Invalid option given. Choose between: \x7b\"", "\", \"", "\"\x7d", rfl⟩

/-- C3 witness: `compute_gradient` at the concrete method `"sgd"`. -/
theorem compute_gradient_invalid_method_witness :
    compute_gradient ffdStub () exParams onesSampler "sgd" =
      (Except.error (Err.invalidArg invalidMethodMsg),
        exParams.map fun kv => Event.sampleCall kv.2.shape) :=
  (compute_gradient_invalid_method ffdStub () exParams onesSampler "sgd"
    (by decide) (by decide)).1

/-- C10: with an invalid method the sampler has nevertheless already
been invoked once per key of `params` (validation happens after
perturbation sampling): the trace is exactly one sampler call per key,
in order, and has the same length as `params`. -/
theorem compute_gradient_invalid_method_samples {I : Type} (forward_pass : I → Dict → ℚ)
    (inputs : I) (params : Dict) (sampler : List Nat → Arr) (method : String)
    (h1 : method ≠ "ffd") (h2 : method ≠ "cfd") :
    (compute_gradient forward_pass inputs params sampler method).2 =
      params.map (fun kv => Event.sampleCall kv.2.shape) ∧
    (compute_gradient forward_pass inputs params sampler method).2.length = params.length := by
  have hmain : compute_gradient forward_pass inputs params sampler method =
      (Except.error (Err.invalidArg invalidMethodMsg),
        params.map fun kv => Event.sampleCall kv.2.shape) := by
    simp [compute_gradient, h1, h2]
  rw [hmain]
  simp

/-- C10 witness: method `"adam"` on the one-key example params. -/
theorem compute_gradient_invalid_method_samples_witness :
    (compute_gradient ffdStub () exParams onesSampler "adam").2 =
      exParams.map (fun kv => Event.sampleCall kv.2.shape) ∧
    (compute_gradient ffdStub () exParams onesSampler "adam").2.length = exParams.length :=
  compute_gradient_invalid_method_samples ffdStub () exParams onesSampler "adam"
    (by decide) (by decide)

/-- C7: `sample_perturbation` returns a dictionary with exactly the
key list of `params`, whose entry at each position is the sampler
draw at the shape of the corresponding `params` entry; empty params
give the empty perturbation. -/
theorem sample_perturbation_spec (sampler : List Nat → Arr) (params : Dict) :
    dkeys (sample_perturbation sampler params) = dkeys params ∧
    List.Forall₂ (fun kv hv => hv.1 = kv.1 ∧ hv.2 = sampler kv.2.shape)
      params (sample_perturbation sampler params) ∧
    sample_perturbation sampler [] = [] := by
  refine ⟨?_, ?_, rfl⟩
  · simp [dkeys, sample_perturbation, List.map_map, Function.comp]
  · induction params with
    | nil => exact List.Forall₂.nil
    | cons hd tl ih => exact List.Forall₂.cons ⟨rfl, rfl⟩ ih

/-- Two dictionary entries with the same key, array shape and data
length (the ParamSet-shaped invariant of the data model). -/
def sameShaped (g p : String × Arr) : Prop :=
  g.1 = p.1 ∧ g.2.shape = p.2.shape ∧ g.2.data.length = p.2.data.length

theorem sameShaped_keys {gradient params : Dict}
    (h : List.Forall₂ sameShaped gradient params) : dkeys gradient = dkeys params := by
  induction h with
  | nil => rfl
  | cons h1 h2 ih =>
    simp only [dkeys, List.map_cons] at ih ⊢
    rw [h1.1, ih]

theorem arr_zero_add (g p : Arr) (hshape : g.shape = p.shape)
    (hlen : g.data.length = p.data.length) :
    Arr.add (Arr.scalarMul 0 g) p = p := by
  obtain ⟨gs, gd⟩ := g
  obtain ⟨ps, pd⟩ := p
  simp only [Arr.scalarMul, Arr.add] at hshape hlen ⊢
  subst hshape
  congr 1
  rw [List.zipWith_map_left]
  exact zipWith_zero_add gd pd (by simpa using hlen)

theorem dictionary_add_zero_delta {gradient params : Dict}
    (hmatch : List.Forall₂ sameShaped gradient params)
    (hnd : (dkeys params).Nodup) :
    dictionary_add (gradient.map (fun kv => (kv.1, Arr.scalarMul 0 kv.2))) params =
      Except.ok params := by
  induction hmatch with
  | nil => rfl
  | @cons g p tlg tlp hrel htail ih =>
    obtain ⟨hkey, hshape, hlen⟩ := hrel
    have hnd2 : (p.1 :: dkeys tlp).Nodup := hnd
    have hndc := List.nodup_cons.mp hnd2
    have hne : ∀ kv ∈ tlg.map (fun kv => (kv.1, Arr.scalarMul 0 kv.2)), kv.1 ≠ p.1 := by
      intro kv hkv hkeq
      obtain ⟨kv0, hkv0, hkveq⟩ := List.mem_map.mp hkv
      have hfst : kv.1 = kv0.1 := by rw [← hkveq]
      have hmem : kv0.1 ∈ dkeys tlp := by
        rw [← sameShaped_keys htail]
        exact List.mem_map_of_mem Prod.fst hkv0
      rw [hfst] at hkeq
      rw [hkeq] at hmem
      exact hndc.1 hmem
    have hfindp : dfind (p :: tlp) g.1 = some p.2 := by
      simp [dfind, hkey.symm]
    simp only [List.map_cons, dictionary_add, hfindp]
    rw [dictionary_add_skip_head _ p _ hne, ih hndc.2]
    rw [arr_zero_add g.2 p.2 hshape hlen, hkey]

/-- C5 counterexample: with an empty gradient and a one-key params,
`update_weights` with `lr = 0` does not return params (it returns the
empty dictionary, since the domain of the result is the key set of the gradient). -/
theorem update_weights_lr_zero_not_id :
    update_weights ([] : Dict) [("w", ⟨[], [10]⟩)] 1 0 ≠
      Except.ok [("w", (⟨[], [10]⟩ : Arr))] := by
  intro h
  rw [show update_weights ([] : Dict) [("w", (⟨[], [10]⟩ : Arr))] 1 0 =
    Except.ok [] from rfl] at h
  simp at h

/-- C5 (amended): `update_weights` with `lr = 0` returns params
unchanged for every nonzero scale, whenever gradient is
ParamSet-shaped like params (same keys in the same order, same
per-key shapes and data lengths, keys distinct). -/
theorem update_weights_lr_zero_id (gradient params : Dict) (scale : ℚ)
    (hs : scale ≠ 0) (hmatch : List.Forall₂ sameShaped gradient params)
    (hnd : (dkeys params).Nodup) :
    update_weights gradient params scale 0 = Except.ok params := by
  have hδ := wpDelta_eq_ok scale 0 gradient hs
  simp only [neg_zero, zero_div] at hδ
  simp only [update_weights, hδ]
  exact dictionary_add_zero_delta hmatch hnd

/-- C5 witness: a concrete lr = 0 identity update. -/
theorem update_weights_lr_zero_id_witness :
    update_weights [("w", ⟨[2], [1, 2]⟩)] [("w", ⟨[2], [10, 20]⟩)] 1 0 =
      Except.ok [("w", ⟨[2], [10, 20]⟩)] :=
  update_weights_lr_zero_id _ _ 1 (by norm_num)
    (List.Forall₂.cons ⟨rfl, rfl, rfl⟩ List.Forall₂.nil) (by decide)

/-- C4: for every gradient, params containing every key of the
gradient, nonzero scale and any lr, `update_weights` succeeds and its
entry at each key `k` of gradient is
`params[k] - lr / scale^2 * gradient[k]` elementwise, with the
key set of the gradient as domain. -/
theorem update_weights_formula (gradient params : Dict) (scale lr : ℚ)
    (hs : scale ≠ 0) (hk : ∀ kv ∈ gradient, (dfind params kv.1).isSome) :
    ∃ updated, update_weights gradient params scale lr = Except.ok updated ∧
      dkeys updated = dkeys gradient ∧
      ∀ k g p, dfind gradient k = some g → dfind params k = some p →
        dfind updated k =
          some ⟨g.shape, List.zipWith (fun gx px => px - lr / scale ^ 2 * gx) g.data p.data⟩ := by
  have hδ := wpDelta_eq_ok scale lr gradient hs
  have hk2 : ∀ kv ∈ gradient.map (fun kv => (kv.1, Arr.scalarMul (-lr / scale ^ 2) kv.2)),
      (dfind params kv.1).isSome := by
    intro kv hkv
    obtain ⟨kv0, hkv0, hkveq⟩ := List.mem_map.mp hkv
    rw [← hkveq]
    exact hk kv0 hkv0
  have hadd := dictionary_add_eq_ok _ params hk2
  refine ⟨(gradient.map (fun kv => (kv.1, Arr.scalarMul (-lr / scale ^ 2) kv.2))).map
    (fun kv => (kv.1, Arr.add kv.2 ((dfind params kv.1).getD ⟨[], []⟩))), ?_, ?_, ?_⟩
  · simp only [update_weights, hδ]
    exact hadd
  · simp [dkeys, List.map_map, Function.comp]
  · intro k g p hg hp
    have hcomp : (gradient.map (fun kv => (kv.1, Arr.scalarMul (-lr / scale ^ 2) kv.2))).map
        (fun kv => (kv.1, Arr.add kv.2 ((dfind params kv.1).getD ⟨[], []⟩))) =
        gradient.map (fun kv => (kv.1,
          Arr.add (Arr.scalarMul (-lr / scale ^ 2) kv.2) ((dfind params kv.1).getD ⟨[], []⟩))) := by
      simp [List.map_map, Function.comp]
    have hfind := dfind_map_entry
      (fun kv => Arr.add (Arr.scalarMul (-lr / scale ^ 2) kv.2) ((dfind params kv.1).getD ⟨[], []⟩)) hg
    dsimp only at hfind
    rw [hcomp, hfind, hp]
    have hzip : List.zipWith (fun x y => x + y) (g.data.map (fun x => -lr / scale ^ 2 * x)) p.data =
        List.zipWith (fun gx px => px - lr / scale ^ 2 * gx) g.data p.data := by
      rw [List.zipWith_map_left]
      congr 1
      funext a b
      ring
    simp only [Option.getD_some, Option.some.injEq, Arr.add, Arr.scalarMul]
    rw [hzip]

/-- C4 witness: gradient `w: 2`, params `w: 10`, scale 1, lr 1/10
yields `w: 49/5` (that is, 9.8). -/
theorem update_weights_formula_witness :
    ∃ updated, update_weights [("w", ⟨[], [2]⟩)] [("w", ⟨[], [10]⟩)] 1 (1/10) =
      Except.ok updated ∧ dfind updated "w" = some ⟨[], [49/5]⟩ := by
  obtain ⟨u, h1, h2, h3⟩ := update_weights_formula [("w", ⟨[], [2]⟩)] [("w", ⟨[], [10]⟩)]
    1 (1/10) (by norm_num) (by decide)
  refine ⟨u, h1, ?_⟩
  have h4 := h3 "w" ⟨[], [2]⟩ ⟨[], [10]⟩ (by decide) (by decide)
  rw [h4]
  with_unfolding_all rfl

/-- C9: the key set of a successful `update_weights` result is exactly
the key set of the gradient: keys only in params are dropped. -/
theorem update_weights_keys (gradient params : Dict) (scale lr : ℚ) (updated : Dict)
    (h : update_weights gradient params scale lr = Except.ok updated) :
    dkeys updated = dkeys gradient := by
  simp only [update_weights] at h
  cases hδ : wpDelta scale lr gradient with
  | error e =>
    rw [hδ] at h
    simp at h
  | ok delta =>
    rw [hδ] at h
    simp only at h
    exact (dictionary_add_ok_keys h).trans (wpDelta_ok_keys hδ)

/-- C9 witness: a params key absent from the gradient is not in the
result. -/
theorem update_weights_keys_witness :
    ∃ updated, update_weights [("w", ⟨[], [2]⟩)] [("w", ⟨[], [10]⟩), ("b", ⟨[], [7]⟩)] 1 1 =
      Except.ok updated ∧ dkeys updated = dkeys [("w", (⟨[], [2]⟩ : Arr))] := by
  have h : update_weights [("w", ⟨[], [2]⟩)] [("w", ⟨[], [10]⟩), ("b", ⟨[], [7]⟩)] 1 1 =
      Except.ok [("w", ⟨[], [8]⟩)] := by with_unfolding_all rfl
  exact ⟨_, h, update_weights_keys _ _ _ _ _ h⟩

/-- C6: `dictionary_add A B` uses the key set of A as the domain of the result,
with `C[k] = A[k] + B[k]` on every key of A; it fails with a KeyError
when some key of A is missing from B, and extra keys of B are ignored
(the success condition only inspects keys of A). -/
theorem dictionary_add_spec (A B : Dict) :
    ((∀ kv ∈ A, (dfind B kv.1).isSome) →
      ∃ C, dictionary_add A B = Except.ok C ∧ dkeys C = dkeys A ∧
        ∀ k v w, dfind A k = some v → dfind B k = some w →
          dfind C k = some (Arr.add v w)) ∧
    ((∃ kv ∈ A, dfind B kv.1 = none) →
      ∃ k, dictionary_add A B = Except.error (Err.keyError k) ∧
        dfind B k = none ∧ (dfind A k).isSome) := by
  constructor
  · intro hall
    have hok := dictionary_add_eq_ok A B hall
    refine ⟨_, hok, ?_, ?_⟩
    · simp [dkeys, List.map_map, Function.comp]
    · intro k v w hv hw
      have hfind := dfind_map_entry
        (fun kv => Arr.add kv.2 ((dfind B kv.1).getD ⟨[], []⟩)) hv
      dsimp only at hfind
      rw [hfind]
      simp [hw]
  · exact dictionary_add_eq_error A B

/-- C6 witness: B has every key of A plus an extra one; the sum is
taken on the single key of A and the extra key of B is ignored. -/
theorem dictionary_add_spec_witness :
    ∃ C, dictionary_add [("a", ⟨[1], [1]⟩)] [("a", ⟨[1], [2]⟩), ("b", ⟨[1], [3]⟩)] =
      Except.ok C ∧ dkeys C = dkeys [("a", (⟨[1], [1]⟩ : Arr))] ∧
      dfind C "a" = some (Arr.add ⟨[1], [1]⟩ ⟨[1], [2]⟩) := by
  obtain ⟨C, h1, h2, h3⟩ :=
    (dictionary_add_spec [("a", ⟨[1], [1]⟩)] [("a", ⟨[1], [2]⟩), ("b", ⟨[1], [3]⟩)]).1
      (by decide)
  exact ⟨C, h1, h2, h3 "a" ⟨[1], [1]⟩ ⟨[1], [2]⟩ (by decide) (by decide)⟩
